import Mathlib

/-
  Verification development for the macaroon capability-token library.

  The Go sources are shallowly embedded: Go errors are modelled as flattened
  lists of base error values (`[]` is the nil error, `appendErrs` is list
  concatenation, `errors.Is(e, target)` is membership of the base value);
  `time.Time` is modelled as an integer count of nanoseconds; byte slices are
  `List Nat`; the msgpack and JSON wire streams are modelled as token lists.
-/

namespace MacaroonSrc

/-- Modelled from the spec: the `Action` bitmask type (`macaroon.Action`, not
under src/); actions are bit flags, `IsSubsetOf` is bitwise inclusion. -/
abbrev Action := Nat

/-- Modelled from the spec: `Action.IsSubsetOf` is bitmask inclusion. -/
def Action.isSubsetOf (a b : Action) : Bool := a &&& b == a

/-- Modelled from the spec: the read action bit. -/
def ActionRead : Action := 1

/-- Modelled from the spec: the write action bit. -/
def ActionWrite : Action := 2

/-- Modelled from the spec: all action bits. -/
def ActionAll : Action := 31

/-- Base (sentinel) error values of the package, as matched by `errors.Is`.
An error value in the Go code is modelled as a flattened `List Err`
(the empty list standing for the nil error, concatenation for `appendErrs`). -/
inductive Err where
  | resourceUnspecified
  | resourcesMutuallyExclusive
  | unauthorized
  | unauthorizedForAction
  | unauthorizedForResource
  | badCaveat
  | invalidAccess
deriving DecidableEq

/-- `errors.Is(err, target)` over a flattened multi-error: some component
wraps the target sentinel. `errors.Is(nil, target)` is false (empty list). -/
def errorsIs (l : List Err) (t : Err) : Bool := l.any (fun e => decide (e = t))

/-- Nanoseconds per second: `time.Unix(sec, 0)` lives at `sec * nsPerSec`
on the nanosecond time line that models `time.Time`. -/
def nsPerSec : Int := 1000000000

/-- The `testAccess` implementation of the `Access` interface
(src/macaroon_test.go): an action, optional parent/child resources and the
current time (`Now`, in nanoseconds). -/
structure Access where
  action : Action
  parentResource : Option Nat
  childResource : Option Nat
  now : Int
deriving DecidableEq

/-- `(*testAccess).Validate` (src/macaroon_test.go): a child resource without
a parent resource is `ErrResourceUnspecified`. -/
def Access.Validate (f : Access) : List Err :=
  if f.childResource.isSome && f.parentResource.isNone then [.resourceUnspecified] else []

/-- Caveat type codes (`CaveatType` is a `uint64` in Go).  The numeric values
of the reserved codes are not part of src/; distinct values are chosen, which
is all the claims depend on. -/
abbrev CaveatType := Nat

/-- Modelled from the spec: reserved code for `Caveat3P`. -/
def Cav3P : CaveatType := 0

/-- Modelled from the spec: reserved code for `IfPresent`. -/
def CavIfPresent : CaveatType := 1

/-- Modelled from the spec: reserved code for `ValidityWindow`. -/
def CavValidityWindow : CaveatType := 2

/-- Modelled from the spec: reserved code for `BindToParentToken`. -/
def CavBindToParentToken : CaveatType := 3

/-- Modelled from the spec: the sentinel code returned by
`caveatTypeFromString` for unknown names; not in the registry. -/
def CavUnregistered : CaveatType := 4

/-- Modelled from the spec: first user-defined caveat type code. -/
def CavMinUserDefined : CaveatType := 4096

/-- `cavTestParentResource` (src/macaroon_test.go): `iota + CavMinUserDefined`. -/
def cavTestParentResource : CaveatType := CavMinUserDefined

/-- `cavTestChildResource` (src/macaroon_test.go). -/
def cavTestChildResource : CaveatType := CavMinUserDefined + 1

/-- Modelled from the spec: type code of the `IsUser` attestation caveat
(registered by the flyio package, whose caveat definitions are not under
src/; src/flyio/caveats_test.go uses `IsUser`). -/
def cavIsUser : CaveatType := CavMinUserDefined + 2

mutual

/-- The caveat variants reachable from src/: the built-ins of src/caveats.go
(`Caveat3P`, `IfPresent`, `ValidityWindow`, `BindToParentToken`), the two
test caveats of src/macaroon_test.go, and (modelled from the spec) the
`IsUser` attestation caveat.  `Caveat3P.rn` carries the unexported HMAC key
field that is excluded from serialization (`msgpack:"-"`, unexported). -/
inductive Caveat where
  | Caveat3P (location : String) (vid cid rn : List Nat)
  | IfPresent (ifs : CavList) (els : Action)
  | ValidityWindow (notBefore notAfter : Int)
  | BindToParentToken (pfx : List Nat)
  | TestParentResource (id : Nat) (permission : Action)
  | TestChildResource (id : Nat) (permission : Action)
  | IsUser (id : Nat)
deriving DecidableEq

/-- The caveat sequence of a `CaveatSet` as it appears nested inside
`IfPresent.Ifs` (a mutual inductive so that equality stays decidable). -/
inductive CavList where
  | nil
  | cons (c : Caveat) (rest : CavList)
deriving DecidableEq

end

/-- View a nested caveat sequence as an ordinary list. -/
def CavList.toList : CavList → List Caveat
  | .nil => []
  | .cons c rest => c :: rest.toList

/-- `CaveatType()` of each caveat variant. -/
def Caveat.CaveatType : Caveat → CaveatType
  | .Caveat3P _ _ _ _ => Cav3P
  | .IfPresent _ _ => CavIfPresent
  | .ValidityWindow _ _ => CavValidityWindow
  | .BindToParentToken _ => CavBindToParentToken
  | .TestParentResource _ _ => cavTestParentResource
  | .TestChildResource _ _ => cavTestChildResource
  | .IsUser _ => cavIsUser

/-- `IsAttestation()`: false for every caveat in src/; the modelled `IsUser`
attestation caveat is the spec's example of a true case. -/
def Caveat.IsAttestation : Caveat → Bool
  | .IsUser _ => true
  | _ => false

mutual

/-- `Prohibits(f Access) error` for each caveat variant, from
src/caveats.go and src/macaroon_test.go.  `IfPresent.Prohibits` folds over
its `Ifs` caveats via `ifsResults`. -/
def Caveat.Prohibits : Caveat → Access → List Err
  | .Caveat3P _ _ _ _, _ => [.badCaveat]
  | .IfPresent ifs els, f =>
      let r := ifsResults ifs f
      if !r.2 && !(Action.isSubsetOf f.action els) then [.unauthorizedForAction] else r.1
  | .ValidityWindow nb na, f =>
      if f.now > na * nsPerSec then [.unauthorized]
      else if f.now < nb * nsPerSec then [.unauthorized]
      else []
  | .BindToParentToken _, _ => [.badCaveat]
  | .TestParentResource id perm, f =>
      match f.parentResource with
      | none => [.resourceUnspecified]
      | some p =>
          if p ≠ id then [.unauthorizedForResource]
          else if !(Action.isSubsetOf f.action perm) then [.unauthorizedForAction]
          else []
  | .TestChildResource id perm, f =>
      match f.childResource with
      | none => [.resourceUnspecified]
      | some p =>
          if p ≠ id then [.unauthorizedForResource]
          else if !(Action.isSubsetOf f.action perm) then [.unauthorizedForAction]
          else []
  | .IsUser _, _ => [.badCaveat]

/-- The loop body of `IfPresent.Prohibits` (src/caveats.go lines 57-63):
returns the accumulated `merr` and the `ifBranch` flag.  A result is skipped
exactly when `errors.Is(cErr, ErrResourceUnspecified)`. -/
def ifsResults : CavList → Access → (List Err × Bool)
  | .nil, _ => ([], false)
  | .cons c rest, f =>
      let cErr := c.Prohibits f
      let r := ifsResults rest f
      if errorsIs cErr .resourceUnspecified then r else (cErr ++ r.1, true)

end

/-- `(*CaveatSet).validateAccess` (src/unnamed/part_000): every
non-attestation caveat's `Prohibits` result, accumulated in order. -/
def CaveatSet.validateAccess (cavs : List Caveat) (f : Access) : List Err :=
  match cavs with
  | [] => []
  | c :: rest =>
      (if c.IsAttestation then [] else c.Prohibits f) ++ CaveatSet.validateAccess rest f

/-- `Validate[A Access]` (src/unnamed/part_000): per access, if
`access.Validate()` errors that error is accumulated and the caveats are
skipped (the loop `continue`s); otherwise `validateAccess` is accumulated. -/
def Validate (cavs : List Caveat) (accesses : List Access) : List Err :=
  match accesses with
  | [] => []
  | a :: rest =>
      (if (Access.Validate a).isEmpty then CaveatSet.validateAccess cavs a
       else Access.Validate a)
      ++ Validate cavs rest

mutual

/-- Erasure performed by serialization on a caveat value: the unexported
`Caveat3P.rn` field (tagged `msgpack:"-"` and invisible to `encoding/json`)
is dropped; the erasure descends into `IfPresent.Ifs`, whose nested
`CaveatSet` is marshalled recursively. -/
def Caveat.eraseRn : Caveat → Caveat
  | .Caveat3P loc vid cid _ => .Caveat3P loc vid cid []
  | .IfPresent ifs els => .IfPresent (eraseRnCavList ifs) els
  | c => c

/-- `Caveat.eraseRn` mapped over a nested caveat sequence. -/
def eraseRnCavList : CavList → CavList
  | .nil => .nil
  | .cons c rest => .cons c.eraseRn (eraseRnCavList rest)

end

/-- `Caveat.eraseRn` mapped over a caveat list. -/
def eraseRnList (cavs : List Caveat) : List Caveat := cavs.map Caveat.eraseRn

/-- `typeToCaveat` (registry lookup, §4.1 of the spec; the registry code is
not under src/, its registrations are the `init` calls of src/caveats.go and
src/macaroon_test.go): returns a zero-valued caveat of the given type code,
or nothing for an unregistered code. -/
def typeToCaveat (t : CaveatType) : Option Caveat :=
  if t = Cav3P then some (.Caveat3P "" [] [] [])
  else if t = CavIfPresent then some (.IfPresent .nil 0)
  else if t = CavValidityWindow then some (.ValidityWindow 0 0)
  else if t = CavBindToParentToken then some (.BindToParentToken [])
  else if t = cavTestParentResource then some (.TestParentResource 0 0)
  else if t = cavTestChildResource then some (.TestChildResource 0 0)
  else if t = cavIsUser then some (.IsUser 0)
  else none

/-- `caveatTypeToString` (registry lookup): the stable name of a type code,
or the empty string for an unregistered code. -/
def caveatTypeToString (t : CaveatType) : String :=
  if t = Cav3P then "3P"
  else if t = CavIfPresent then "IfPresent"
  else if t = CavValidityWindow then "ValidityWindow"
  else if t = CavBindToParentToken then "BindToParentToken"
  else if t = cavTestParentResource then "ParentResource"
  else if t = cavTestChildResource then "ChildResource"
  else if t = cavIsUser then "IsUser"
  else ""

/-- `caveatTypeFromString` (registry lookup): the type code of a stable name;
unknown names map to the unregistered sentinel code. -/
def caveatTypeFromString (s : String) : CaveatType :=
  if s = "3P" then Cav3P
  else if s = "IfPresent" then CavIfPresent
  else if s = "ValidityWindow" then CavValidityWindow
  else if s = "BindToParentToken" then CavBindToParentToken
  else if s = "ParentResource" then cavTestParentResource
  else if s = "ChildResource" then cavTestChildResource
  else if s = "IsUser" then cavIsUser
  else CavUnregistered

/-- The nonce of a macaroon (`MacaroonNonce`): key id, random bytes, proof
flag. -/
structure MacaroonNonce where
  KID : List Nat
  Rnd : List Nat
  Proof : Bool
deriving DecidableEq

/-- A token of the msgpack stream, abstracting the byte-level encoding:
an array-length header, an unsigned integer, an encoded caveat value (with
`rn` already erased by the field tags), and the nonce / string / byte-string
values used by the macaroon envelope. -/
inductive Tok where
  | arr (n : Nat)
  | uintT (t : Nat)
  | body (c : Caveat)
  | nonceT (n : MacaroonNonce)
  | strT (s : String)
  | bytesT (b : List Nat)
deriving DecidableEq

/-- `CaveatSet.EncodeMsgpack` loop body (src/unnamed/part_000 lines 97-105):
for each caveat, its type code as an unsigned integer followed by its encoded
value. -/
def encodeCavToks : List Caveat → List Tok
  | [] => []
  | c :: rest => Tok.uintT c.CaveatType :: Tok.body c.eraseRn :: encodeCavToks rest

/-- `CaveatSet.EncodeMsgpack` (src/unnamed/part_000): an array header of
length `len(caveats) * 2` followed by the alternating type/value tokens. -/
def CaveatSet.EncodeMsgpack (cavs : List Caveat) : List Tok :=
  Tok.arr (cavs.length * 2) :: encodeCavToks cavs

/-- `dec.Decode(cav)` into the zero value `z` allocated by `typeToCaveat`:
succeeds when the encoded value has the shape of `z`'s type, producing the
value (whose `rn` the field tags leave zero). -/
def decodeInto (z : Caveat) (b : Caveat) : Except String Caveat :=
  if b.CaveatType = z.CaveatType then .ok b.eraseRn else .error "decode error"

/-- One iteration of the `CaveatSet.DecodeMsgpack` loop (src/unnamed/part_000
lines 126-142): read a type code, allocate a zero value of that type via the
registry, decode the following value into it. -/
def decodeCaveatPair (toks : List Tok) : Except String (Caveat × List Tok) :=
  match toks with
  | Tok.uintT t :: rest =>
      match typeToCaveat t with
      | none => .error "unregistered caveat type"
      | some z =>
          match rest with
          | Tok.body b :: rest2 =>
              match decodeInto z b with
              | .ok c => .ok (c, rest2)
              | .error e => .error e
          | _ => .error "decode error"
  | _ => .error "decode error"

/-- The `nCavs`-iteration loop of `CaveatSet.DecodeMsgpack`; any failing
iteration aborts the whole decode with its error. -/
def decodeCaveatsLoop : Nat → List Tok → Except String (List Caveat × List Tok)
  | 0, toks => .ok ([], toks)
  | n + 1, toks =>
      match decodeCaveatPair toks with
      | .error e => .error e
      | .ok pr =>
          match decodeCaveatsLoop n pr.2 with
          | .error e => .error e
          | .ok rec2 => .ok (pr.1 :: rec2.1, rec2.2)

/-- `CaveatSet.DecodeMsgpack` (src/unnamed/part_000): read the array header,
reject an odd length with "bad caveat container", then decode
`aLen / 2` type/value pairs. -/
def CaveatSet.DecodeMsgpack (toks : List Tok) : Except String (List Caveat × List Tok) :=
  match toks with
  | Tok.arr aLen :: rest =>
      if aLen % 2 ≠ 0 then .error "bad caveat container"
      else decodeCaveatsLoop (aLen / 2) rest
  | _ => .error "decode error"

/-- A `jsonCaveat` (src/unnamed/part_000): the stable type name and the
caveat's JSON body (the body abstracted as the erased caveat value). -/
structure JCav where
  type : String
  body : Caveat
deriving DecidableEq

/-- `CaveatSet.MarshalJSON` (src/unnamed/part_000): each caveat becomes a
tagged object; an unregistered type code aborts the marshal. -/
def CaveatSet.MarshalJSON : List Caveat → Except String (List JCav)
  | [] => .ok []
  | c :: rest =>
      if caveatTypeToString c.CaveatType = "" then .error "unregistered caveat type"
      else
        match CaveatSet.MarshalJSON rest with
        | .error e => .error e
        | .ok js => .ok (⟨caveatTypeToString c.CaveatType, c.eraseRn⟩ :: js)

/-- `CaveatSet.UnmarshalJSON` (src/unnamed/part_000): for each entry, look
the name up in the registry, fail with "bad caveat type" when the zero value
is nil, and unmarshal the body into it. -/
def CaveatSet.UnmarshalJSON : List JCav → Except String (List Caveat)
  | [] => .ok []
  | j :: rest =>
      match typeToCaveat (caveatTypeFromString j.type) with
      | none => .error ("bad caveat type: " ++ j.type)
      | some z =>
          match decodeInto z j.body with
          | .error e => .error e
          | .ok c =>
              match CaveatSet.UnmarshalJSON rest with
              | .error e => .error e
              | .ok cs => .ok (c :: cs)

/-- The macaroon entity: nonce, location, pre-verification caveats, tail. -/
structure Macaroon where
  Nonce : MacaroonNonce
  Location : String
  UnsafeCaveats : List Caveat
  Tail : List Nat
deriving DecidableEq

/-- Modelled from the spec: `Macaroon.Encode` is the msgpack encoding of
`{ nonce, location, caveats, tail }` (§4.5; the macaroon codec itself is not
under src/), the caveat set encoded by `CaveatSet.EncodeMsgpack`. -/
def Macaroon.Encode (m : Macaroon) : List Tok :=
  Tok.nonceT m.Nonce :: Tok.strT m.Location ::
    CaveatSet.EncodeMsgpack m.UnsafeCaveats ++ [Tok.bytesT m.Tail]

/-- Modelled from the spec: `Decode` parses the msgpack envelope back into a
`Macaroon` without verifying it (§4.5). -/
def Decode (toks : List Tok) : Except String Macaroon :=
  match toks with
  | Tok.nonceT n :: Tok.strT s :: rest =>
      match CaveatSet.DecodeMsgpack rest with
      | .error e => .error e
      | .ok pr =>
          match pr.2 with
          | [Tok.bytesT t] => .ok ⟨n, s, pr.1, t⟩
          | _ => .error "decode error"
  | _ => .error "decode error"

/-- Modelled from the spec: the per-caveat step of `Macaroon.Add` (§4.5):
a caveat deep-equal to one already present is skipped silently; otherwise it
is appended.  (The `Tail` HMAC advance is outside the caveat-list claims.) -/
def addCaveat (l : List Caveat) (c : Caveat) : List Caveat :=
  if c ∈ l then l else l ++ [c]

/-- Modelled from the spec: `Macaroon.Add(caveats...)` processes its
arguments in order against the growing list. -/
def addCaveats (l : List Caveat) (cs : List Caveat) : List Caveat :=
  cs.foldl addCaveat l

/-- The prefixes of the `BindToParentToken` caveats of a caveat list, in
order. -/
def bindToParentPfxs (cavs : List Caveat) : List (List Nat) :=
  cavs.filterMap (fun c =>
    match c with
    | .BindToParentToken p => some p
    | _ => none)

/-- Modelled from the spec: step 4 of the verifier (§4.7; `Verify` is not
under src/): every `BindToParentToken` caveat on the root must have its
prefix extend to at least one supplied token binding id; the check passes
vacuously when no such caveat is present. -/
def verifyBindToParentTokens (rootCavs : List Caveat) (tokenBindingIds : List (List Nat)) : Bool :=
  (bindToParentPfxs rootCavs).all (fun p => tokenBindingIds.any (fun i => p.isPrefixOf i))

/-- Claim C1's reading of `Validate`: for each access, the
`access.Validate()` error is accumulated and then every non-attestation
caveat's `Prohibits` result is accumulated, unconditionally.  (Stated from
the claim's words, for comparison with the source's `Validate`.) -/
def validateClaimed (cavs : List Caveat) (accesses : List Access) : List Err :=
  (accesses.map (fun a =>
    Access.Validate a ++
      ((cavs.filter (fun c => !c.IsAttestation)).map (fun c => c.Prohibits a)).flatten)).flatten

/-- The amended reading of `Validate`: per access, a failing
`access.Validate()` is accumulated alone and the caveats are skipped for
that access; otherwise every non-attestation caveat's `Prohibits` result is
accumulated. -/
def validateAmended (cavs : List Caveat) (accesses : List Access) : List Err :=
  (accesses.map (fun a =>
    if (Access.Validate a).isEmpty then
      ((cavs.filter (fun c => !c.IsAttestation)).map (fun c => c.Prohibits a)).flatten
    else Access.Validate a)).flatten

/-- The `Ifs` results that apply, in claim C2's phrasing: all `Prohibits`
results that are not `ErrResourceUnspecified` (an `Ok` result counts as
applying). -/
def ifApplying (f : Access) (ifs : CavList) : List (List Err) :=
  (ifs.toList.map (fun c => c.Prohibits f)).filter
    (fun r => !(errorsIs r .resourceUnspecified))

/-- Whether an `Except` result is a success. -/
def isOkE {α : Type} : Except String α → Bool
  | .ok _ => true
  | .error _ => false

/-- The token stream of a list of `(type code, caveat value)` pairs, as an
even-length caveat container holds them. -/
def pairToks (ps : List (CaveatType × Caveat)) : List Tok :=
  (ps.map (fun p => [Tok.uintT p.1, Tok.body p.2])).flatten

/-- A `(type code, caveat value)` pair the decoder accepts: the code is
registered and the value has the declared type's shape. -/
def pairDecodable (p : CaveatType × Caveat) : Bool :=
  match typeToCaveat p.1 with
  | none => false
  | some z => p.2.CaveatType == z.CaveatType

/- ------------------------------------------------------------------ -/
/- Theorems.                                                          -/
/- ------------------------------------------------------------------ -/

/-- `validateAccess` is the concatenation of the `Prohibits` results of the
non-attestation caveats, in order. -/
theorem validateAccess_eq (cavs : List Caveat) (f : Access) :
    CaveatSet.validateAccess cavs f
      = ((cavs.filter (fun c => !c.IsAttestation)).map (fun c => c.Prohibits f)).flatten := by
  induction cavs with
  | nil => rfl
  | cons c rest ih =>
      cases hA : c.IsAttestation <;>
        simp [CaveatSet.validateAccess, List.filter_cons, hA, ih]

/-- C1 (amended): `Validate` evaluates each access by calling
`access.Validate()`; when that fails its error alone is accumulated and the
caveats are skipped for that access; otherwise `Prohibits(access)` is called
on every non-attestation caveat, each result accumulated; the returned value
is the concatenation of all failures, and one failing caveat or access does
not prevent the remaining caveats or accesses from being evaluated. -/
theorem validate_skips_caveats_on_access_error (cavs : List Caveat) (accs : List Access) :
    Validate cavs accs = validateAmended cavs accs := by
  induction accs with
  | nil => rfl
  | cons a rest ih =>
      simp only [Validate, validateAmended, List.map_cons, List.flatten_cons]
      simp only [validateAmended] at ih
      rw [ih, validateAccess_eq]

/-- C1 counterexample: on an access whose `Validate()` fails, the caveats
are not evaluated, so the claimed reading (accumulate the access error and
then every caveat's `Prohibits` result) disagrees with the source. -/
theorem validate_not_as_claimed_cx :
    Validate [Caveat.Caveat3P "" [] [] []] [⟨0, none, some 1, 0⟩]
        ≠ validateClaimed [Caveat.Caveat3P "" [] [] []] [⟨0, none, some 1, 0⟩]
      ∧ Validate [Caveat.Caveat3P "" [] [] []] [⟨0, none, some 1, 0⟩]
        = [Err.resourceUnspecified]
      ∧ validateClaimed [Caveat.Caveat3P "" [] [] []] [⟨0, none, some 1, 0⟩]
        = [Err.resourceUnspecified, Err.badCaveat] := by
  refine ⟨by decide, by decide, by decide⟩

/-- The `IfPresent` loop returns the concatenation of the applying results
together with the flag that some result applied. -/
theorem ifsResults_eq : ∀ (ifs : CavList) (f : Access),
    ifsResults ifs f = ((ifApplying f ifs).flatten, !(ifApplying f ifs).isEmpty)
  | .nil, _ => rfl
  | .cons c rest, f => by
      have ih := ifsResults_eq rest f
      cases h : errorsIs (c.Prohibits f) .resourceUnspecified <;>
        simp [ifsResults, ifApplying, CavList.toList, List.filter_cons, h] <;>
        simp [ifApplying] at ih <;> simp [ih]

/-- C2: `IfPresent.Prohibits` returns the combined errors of the applying
`Ifs` results (those that are not `ErrResourceUnspecified`, `Ok` counting as
applying) when any apply; otherwise it returns `Ok` exactly when the
access's action is a subset of `Else`, and `ErrUnauthorizedForAction`
otherwise. -/
theorem ifPresent_prohibits_spec (ifs : CavList) (els : Action) (f : Access) :
    (Caveat.IfPresent ifs els).Prohibits f =
      if (ifApplying f ifs).isEmpty then
        (if Action.isSubsetOf f.action els then [] else [Err.unauthorizedForAction])
      else (ifApplying f ifs).flatten := by
  cases hl : ifApplying f ifs with
  | nil =>
      cases hs : Action.isSubsetOf f.action els <;>
        simp [Caveat.Prohibits, ifsResults_eq, hl, hs]
  | cons r rs => simp [Caveat.Prohibits, ifsResults_eq, hl]

/-- C9: `ValidityWindow.Prohibits` permits exactly the accesses whose time
lies in the inclusive window `[NotBefore, NotAfter]` (at the granularity of
`time.Unix(·, 0)` instants on the nanosecond time line: the strict
`After`/`Before` comparisons make both boundary instants permitted), and
denies with an error wrapping `ErrUnauthorized` otherwise. -/
theorem validityWindow_inclusive (nb na : Int) (f : Access) :
    (Caveat.ValidityWindow nb na).Prohibits f =
      if nb * nsPerSec ≤ f.now ∧ f.now ≤ na * nsPerSec then [] else [Err.unauthorized] := by
  simp only [Caveat.Prohibits]
  split_ifs <;> first | rfl | omega

/-- A non-attestation caveat present in the set contributes its `Prohibits`
errors to `validateAccess`. -/
theorem mem_validateAccess (cavs : List Caveat) (f : Access) (c : Caveat) (e : Err)
    (hc : c ∈ cavs) (hA : c.IsAttestation = false) (he : e ∈ c.Prohibits f) :
    e ∈ CaveatSet.validateAccess cavs f := by
  induction cavs with
  | nil => cases hc
  | cons d rest ih =>
      simp only [CaveatSet.validateAccess, List.mem_append]
      rcases List.mem_cons.mp hc with h | h
      · subst h
        exact Or.inl (by simp [hA, he])
      · exact Or.inr (ih h)

/-- C6: `Caveat3P.Prohibits` always returns an error wrapping
`ErrBadCaveat`, `Caveat3P.IsAttestation()` is false, and consequently a
`Caveat3P` in a `CaveatSet` passed to `Validate` contributes a denial for
every access that itself validates. -/
theorem caveat3P_always_denies (loc : String) (vid cid rn : List Nat) (f : Access)
    (cavs : List Caveat) (a : Access) :
    ((Caveat.Caveat3P loc vid cid rn).Prohibits f = [Err.badCaveat])
    ∧ ((Caveat.Caveat3P loc vid cid rn).IsAttestation = false)
    ∧ (Caveat.Caveat3P loc vid cid rn ∈ cavs → Access.Validate a = [] →
        Err.badCaveat ∈ Validate cavs [a]) := by
  refine ⟨rfl, rfl, fun hmem hval => ?_⟩
  have : Err.badCaveat ∈ CaveatSet.validateAccess cavs a :=
    mem_validateAccess cavs a _ _ hmem rfl (by simp [Caveat.Prohibits])
  simp [Validate, hval, this]

/-- Witness for C6 at a concrete caveat set and a validating access. -/
theorem caveat3P_always_denies_witness :
    Err.badCaveat ∈ Validate [Caveat.Caveat3P "loc" [] [] []]
      [{ action := 1, parentResource := some 2, childResource := none, now := 0 }] :=
  (caveat3P_always_denies "loc" [] [] []
      { action := 1, parentResource := some 2, childResource := none, now := 0 }
      [Caveat.Caveat3P "loc" [] [] []]
      { action := 1, parentResource := some 2, childResource := none, now := 0 }).2.2
    (by decide) (by decide)

/-- C7: adding a caveat twice leaves the caveat list as after the first add,
also within one variadic `Add` call; a caveat deep-equal to one already
present is skipped silently (preserving order), and a caveat differing in
any field is appended. -/
theorem add_dedup (l : List Caveat) (c : Caveat) :
    (addCaveat (addCaveat l c) c = addCaveat l c)
    ∧ (addCaveats l [c, c] = addCaveat l c)
    ∧ (c ∈ l → addCaveat l c = l)
    ∧ (c ∉ l → addCaveat l c = l ++ [c]) := by
  have h1 : addCaveat (addCaveat l c) c = addCaveat l c := by
    by_cases h : c ∈ l <;> simp [addCaveat, h]
  exact ⟨h1, h1, fun h => by simp [addCaveat, h], fun h => by simp [addCaveat, h]⟩

/-- Witness for C7: a fresh caveat is appended, a duplicate is suppressed. -/
theorem add_dedup_witness :
    addCaveat [] (Caveat.ValidityWindow 0 1) = [] ++ [Caveat.ValidityWindow 0 1]
    ∧ addCaveat [Caveat.ValidityWindow 0 1] (Caveat.ValidityWindow 0 1)
        = [Caveat.ValidityWindow 0 1] :=
  ⟨(add_dedup [] (Caveat.ValidityWindow 0 1)).2.2.2 (by decide),
   (add_dedup [Caveat.ValidityWindow 0 1] (Caveat.ValidityWindow 0 1)).2.2.1 (by decide)⟩

mutual

/-- Serialization erasure is idempotent. -/
theorem Caveat.eraseRn_idem : ∀ c : Caveat, c.eraseRn.eraseRn = c.eraseRn
  | .Caveat3P _ _ _ _ => rfl
  | .IfPresent ifs _ => by simp [Caveat.eraseRn, eraseRnCavList_idem ifs]
  | .ValidityWindow _ _ => rfl
  | .BindToParentToken _ => rfl
  | .TestParentResource _ _ => rfl
  | .TestChildResource _ _ => rfl
  | .IsUser _ => rfl

/-- Serialization erasure is idempotent on nested caveat sequences. -/
theorem eraseRnCavList_idem : ∀ l : CavList, eraseRnCavList (eraseRnCavList l) = eraseRnCavList l
  | .nil => rfl
  | .cons c rest => by simp [eraseRnCavList, Caveat.eraseRn_idem c, eraseRnCavList_idem rest]

end

/-- Serialization erasure preserves the caveat's type code. -/
theorem Caveat.eraseRn_type (c : Caveat) : c.eraseRn.CaveatType = c.CaveatType := by
  cases c <;> rfl

/-- Decoding one encoded pair recovers the erased caveat. -/
theorem decodeCaveatPair_encode (c : Caveat) (rest : List Tok) :
    decodeCaveatPair (Tok.uintT c.CaveatType :: Tok.body c.eraseRn :: rest)
      = .ok (c.eraseRn, rest) := by
  cases c <;>
    simp [decodeCaveatPair, typeToCaveat, Caveat.CaveatType, decodeInto, Caveat.eraseRn,
      eraseRnCavList_idem, Cav3P, CavIfPresent, CavValidityWindow, CavBindToParentToken,
      cavTestParentResource, cavTestChildResource, cavIsUser, CavMinUserDefined]

/-- Decoding the encoded pair tokens of a caveat list recovers the erased
caveats, leaving the remaining tokens untouched. -/
theorem decodeLoop_encode : ∀ (cavs : List Caveat) (rest : List Tok),
    decodeCaveatsLoop cavs.length (encodeCavToks cavs ++ rest) = .ok (eraseRnList cavs, rest)
  | [], _ => rfl
  | c :: cavs, rest => by
      have ih := decodeLoop_encode cavs rest
      simp [encodeCavToks, decodeCaveatsLoop, decodeCaveatPair_encode, ih, eraseRnList]

/-- The alternating pair tokens of the encoder, in map form. -/
theorem encodeCavToks_eq (cavs : List Caveat) :
    encodeCavToks cavs
      = (cavs.map (fun c => [Tok.uintT c.CaveatType, Tok.body c.eraseRn])).flatten := by
  induction cavs with
  | nil => rfl
  | cons c rest ih => simp [encodeCavToks, ih]

/-- Decoding the tokens of a list of decodable `(type, value)` pairs yields
the erased values, leaving the remaining tokens untouched. -/
theorem decodeLoop_pairs : ∀ (ps : List (CaveatType × Caveat)) (rest : List Tok),
    ps.all pairDecodable = true →
    decodeCaveatsLoop ps.length (pairToks ps ++ rest)
      = .ok (ps.map (fun p => (p.2).eraseRn), rest)
  | [], _, _ => rfl
  | p :: ps, rest, h => by
      rw [List.all_cons, Bool.and_eq_true] at h
      have ih := decodeLoop_pairs ps rest h.2
      have hp := h.1
      unfold pairDecodable at hp
      rcases hz : typeToCaveat p.1 with _ | z
      · rw [hz] at hp; cases hp
      · rw [hz] at hp
        have htype : (p.2).CaveatType = z.CaveatType := by
          have := hp
          simpa using this
        simp only [pairToks] at ih
        simp [pairToks, decodeCaveatsLoop, decodeCaveatPair, hz, decodeInto, htype, ih,
          List.cons_append]

/-- C3: the msgpack form of a `CaveatSet` of `n` caveats is a flat array of
length `2 × n` alternating type code (as an unsigned integer) and encoded
caveat value, in caveat order; decoding an odd-length array fails with
"bad caveat container"; decoding an even-length array allocates a
zero-valued caveat of each declared type and decodes the following value
into it. -/
theorem caveatSet_msgpack_layout (cavs : List Caveat) (n : Nat) (toks : List Tok)
    (ps : List (CaveatType × Caveat)) (rest : List Tok) :
    (CaveatSet.EncodeMsgpack cavs
        = Tok.arr (2 * cavs.length)
            :: (cavs.map (fun c => [Tok.uintT c.CaveatType, Tok.body c.eraseRn])).flatten)
    ∧ (n % 2 = 1 →
        CaveatSet.DecodeMsgpack (Tok.arr n :: toks) = .error "bad caveat container")
    ∧ (ps.all pairDecodable = true →
        CaveatSet.DecodeMsgpack (Tok.arr (2 * ps.length) :: pairToks ps ++ rest)
          = .ok (ps.map (fun p => (p.2).eraseRn), rest)) := by
  refine ⟨?_, fun hodd => ?_, fun hps => ?_⟩
  · simp [CaveatSet.EncodeMsgpack, encodeCavToks_eq, Nat.mul_comm]
  · simp [CaveatSet.DecodeMsgpack, hodd]
  · have h2 : 2 * ps.length % 2 = 0 := by omega
    have h3 : 2 * ps.length / 2 = ps.length := by omega
    simp [CaveatSet.DecodeMsgpack, h2, h3, decodeLoop_pairs ps rest hps]

/-- Witness for C3: a length-3 container is rejected, a decodable pair
stream is decoded. -/
theorem caveatSet_msgpack_layout_witness :
    CaveatSet.DecodeMsgpack [Tok.arr 3] = .error "bad caveat container"
    ∧ CaveatSet.DecodeMsgpack
        (Tok.arr 2 :: pairToks [(CavValidityWindow, Caveat.ValidityWindow 1 2)] ++ [])
        = .ok ([Caveat.ValidityWindow 1 2], []) :=
  ⟨(caveatSet_msgpack_layout [] 3 [] [] []).2.1 (by decide),
   (caveatSet_msgpack_layout [] 3 []
      [(CavValidityWindow, Caveat.ValidityWindow 1 2)] []).2.2 (by decide)⟩

/-- JSON round trip of a caveat list at the entry level: marshalling
succeeds on this closed caveat universe and unmarshalling the result
recovers the erased caveats. -/
theorem unmarshal_marshal : ∀ (cavs : List Caveat) (js : List JCav),
    CaveatSet.MarshalJSON cavs = .ok js →
    CaveatSet.UnmarshalJSON js = .ok (eraseRnList cavs)
  | [], js, h => by
      simp only [CaveatSet.MarshalJSON] at h
      cases h
      rfl
  | c :: cavs, js, h => by
      rcases hrest : CaveatSet.MarshalJSON cavs with e | js0
      · rw [CaveatSet.MarshalJSON, hrest] at h
        split at h <;> cases h
      · have ih := unmarshal_marshal cavs js0 hrest
        rw [CaveatSet.MarshalJSON, hrest] at h
        split at h
        · cases h
        · cases h
          cases c <;>
            simp [CaveatSet.UnmarshalJSON, caveatTypeToString, caveatTypeFromString,
              typeToCaveat, decodeInto, Caveat.CaveatType, Caveat.eraseRn,
              eraseRnCavList_idem, ih, eraseRnList,
              Cav3P, CavIfPresent, CavValidityWindow, CavBindToParentToken,
              cavTestParentResource, cavTestChildResource, cavIsUser, CavMinUserDefined]

/-- Erasure fixes a caveat list whose `Caveat3P` members carry no `rn`. -/
theorem eraseRnList_cons (c : Caveat) (cavs : List Caveat) :
    eraseRnList (c :: cavs) = c.eraseRn :: eraseRnList cavs := rfl

/-- C5 (amended): for every macaroon and caveat set whose `Caveat3P`
caveats carry an empty `rn` (the unexported field excluded from
serialization), decoding the msgpack encoding and unmarshalling the JSON
encoding each reproduce the original exactly. -/
theorem roundtrip_modulo_rn (m : Macaroon) (cavs : List Caveat) :
    (eraseRnList m.UnsafeCaveats = m.UnsafeCaveats →
        Decode (Macaroon.Encode m) = .ok m)
    ∧ (eraseRnList cavs = cavs →
        CaveatSet.DecodeMsgpack (CaveatSet.EncodeMsgpack cavs) = .ok (cavs, [])
        ∧ ∀ js, CaveatSet.MarshalJSON cavs = .ok js →
            CaveatSet.UnmarshalJSON js = .ok cavs) := by
  have hmsg : ∀ (l : List Caveat) (rest : List Tok),
      CaveatSet.DecodeMsgpack (CaveatSet.EncodeMsgpack l ++ rest) = .ok (eraseRnList l, rest) := by
    intro l rest
    have h2 : l.length * 2 % 2 = 0 := by omega
    have h3 : l.length * 2 / 2 = l.length := by omega
    simp [CaveatSet.EncodeMsgpack, CaveatSet.DecodeMsgpack, List.cons_append, h2, h3,
      decodeLoop_encode]
  constructor
  · intro hm
    have := hmsg m.UnsafeCaveats [Tok.bytesT m.Tail]
    rw [hm] at this
    simp [Macaroon.Encode, Decode, List.cons_append, this]
  · intro hc
    refine ⟨?_, fun js hjs => ?_⟩
    · have := hmsg cavs []
      rw [hc] at this
      simpa using this
    · have := unmarshal_marshal cavs js hjs
      rwa [hc] at this

/-- Witness for C5: a concrete `rn`-free macaroon and caveat set round-trip
through both codecs. -/
theorem roundtrip_modulo_rn_witness :
    Decode (Macaroon.Encode
        ⟨⟨[1], [2], false⟩, "loc", [Caveat.Caveat3P "other" [3] [4] []], [9]⟩)
      = .ok ⟨⟨[1], [2], false⟩, "loc", [Caveat.Caveat3P "other" [3] [4] []], [9]⟩
    ∧ CaveatSet.DecodeMsgpack
        (CaveatSet.EncodeMsgpack [Caveat.Caveat3P "other" [3] [4] []])
      = .ok ([Caveat.Caveat3P "other" [3] [4] []], [])
    ∧ CaveatSet.UnmarshalJSON [⟨"3P", Caveat.Caveat3P "other" [3] [4] []⟩]
      = .ok [Caveat.Caveat3P "other" [3] [4] []] :=
  ⟨(roundtrip_modulo_rn
      ⟨⟨[1], [2], false⟩, "loc", [Caveat.Caveat3P "other" [3] [4] []], [9]⟩
      [Caveat.Caveat3P "other" [3] [4] []]).1 (by decide),
   ((roundtrip_modulo_rn
      ⟨⟨[1], [2], false⟩, "loc", [Caveat.Caveat3P "other" [3] [4] []], [9]⟩
      [Caveat.Caveat3P "other" [3] [4] []]).2 (by decide)).1,
   ((roundtrip_modulo_rn
      ⟨⟨[1], [2], false⟩, "loc", [Caveat.Caveat3P "other" [3] [4] []], [9]⟩
      [Caveat.Caveat3P "other" [3] [4] []]).2 (by decide)).2
     [⟨"3P", Caveat.Caveat3P "other" [3] [4] []⟩] (by rfl)⟩

/-- C5 counterexample: a `CaveatSet` built solely from registered caveat
types whose `Caveat3P` carries a non-empty `rn` decodes (from its own
msgpack encoding) to a different value: `rn` comes back empty. -/
theorem roundtrip_rn_cx :
    CaveatSet.DecodeMsgpack (CaveatSet.EncodeMsgpack [Caveat.Caveat3P "l" [] [] [1]])
      = .ok ([Caveat.Caveat3P "l" [] [] []], [])
    ∧ [Caveat.Caveat3P "l" [] [] []] ≠ [Caveat.Caveat3P "l" [] [] [1]] := by
  refine ⟨by rfl, by decide⟩

/-- The pair tokens of two caveat lists equal except for a `Caveat3P.rn`
coincide. -/
theorem encodeCavToks_rn_invariant (pre post : List Caveat) (loc : String)
    (vid cid rn rn2 : List Nat) :
    encodeCavToks (pre ++ Caveat.Caveat3P loc vid cid rn :: post)
      = encodeCavToks (pre ++ Caveat.Caveat3P loc vid cid rn2 :: post) := by
  induction pre with
  | nil => rfl
  | cons c pre ih => simp [encodeCavToks, ih]

/-- The JSON forms of two caveat lists equal except for a `Caveat3P.rn`
coincide. -/
theorem marshalJSON_rn_invariant (pre post : List Caveat) (loc : String)
    (vid cid rn rn2 : List Nat) :
    CaveatSet.MarshalJSON (pre ++ Caveat.Caveat3P loc vid cid rn :: post)
      = CaveatSet.MarshalJSON (pre ++ Caveat.Caveat3P loc vid cid rn2 :: post) := by
  induction pre with
  | nil => rfl
  | cons c pre ih =>
      simp only [List.cons_append, CaveatSet.MarshalJSON, List.append_eq]
      rw [ih]

/-- C10: the third-party root key `rn` held inside a `Caveat3P` never
appears in an encoding: two caveat sets equal except for the `rn` of a
`Caveat3P` have identical msgpack encodings and identical JSON encodings. -/
theorem rn_never_serialized (pre post : List Caveat) (loc : String)
    (vid cid rn rn2 : List Nat) :
    CaveatSet.EncodeMsgpack (pre ++ Caveat.Caveat3P loc vid cid rn :: post)
      = CaveatSet.EncodeMsgpack (pre ++ Caveat.Caveat3P loc vid cid rn2 :: post)
    ∧ CaveatSet.MarshalJSON (pre ++ Caveat.Caveat3P loc vid cid rn :: post)
      = CaveatSet.MarshalJSON (pre ++ Caveat.Caveat3P loc vid cid rn2 :: post) := by
  refine ⟨?_, marshalJSON_rn_invariant pre post loc vid cid rn rn2⟩
  simp [CaveatSet.EncodeMsgpack, encodeCavToks_rn_invariant pre post loc vid cid rn rn2]

/-- The pair token stream of a cons, unfolded. -/
theorem pairToks_cons (p : CaveatType × Caveat) (ps : List (CaveatType × Caveat)) :
    pairToks (p :: ps) = Tok.uintT p.1 :: Tok.body p.2 :: pairToks ps := by
  simp [pairToks]

/-- A pair stream declaring an unregistered type code never decodes. -/
theorem decodeLoop_unregistered : ∀ (ps : List (CaveatType × Caveat)) (rest : List Tok),
    ps.any (fun p => (typeToCaveat p.1).isNone) = true →
    isOkE (decodeCaveatsLoop ps.length (pairToks ps ++ rest)) = false
  | [], _, h => by simp at h
  | p :: ps, rest, h => by
      rcases hz : typeToCaveat p.1 with _ | z
      · simp [pairToks_cons, decodeCaveatsLoop, decodeCaveatPair, hz, List.cons_append, isOkE]
      · have htail : ps.any (fun p => (typeToCaveat p.1).isNone) = true := by
          rw [List.any_cons] at h
          simpa [hz] using h
        have ih := decodeLoop_unregistered ps rest htail
        by_cases hb : (p.2).CaveatType = z.CaveatType
        · rcases hl : decodeCaveatsLoop ps.length (pairToks ps ++ rest) with e | pr
          · simp [pairToks_cons, decodeCaveatsLoop, decodeCaveatPair, hz, decodeInto, hb,
              List.cons_append, hl, isOkE]
          · rw [hl] at ih
            simp [isOkE] at ih
        · simp [pairToks_cons, decodeCaveatsLoop, decodeCaveatPair, hz, decodeInto, hb,
            List.cons_append, isOkE]

/-- A JSON caveat array naming an unknown type never unmarshals. -/
theorem unmarshalJSON_unknown : ∀ (js : List JCav),
    js.any (fun j => (typeToCaveat (caveatTypeFromString j.type)).isNone) = true →
    isOkE (CaveatSet.UnmarshalJSON js) = false
  | [], h => by simp at h
  | j :: js, h => by
      rcases hz : typeToCaveat (caveatTypeFromString j.type) with _ | z
      · simp [CaveatSet.UnmarshalJSON, hz, isOkE]
      · have htail : js.any (fun j => (typeToCaveat (caveatTypeFromString j.type)).isNone)
            = true := by
          rw [List.any_cons] at h
          simpa [hz] using h
        have ih := unmarshalJSON_unknown js htail
        by_cases hb : j.body.CaveatType = z.CaveatType
        · rcases hl : CaveatSet.UnmarshalJSON js with e | cs
          · simp [CaveatSet.UnmarshalJSON, hz, decodeInto, hb, hl, isOkE]
          · rw [hl] at ih
            simp [isOkE] at ih
        · simp [CaveatSet.UnmarshalJSON, hz, decodeInto, hb, isOkE]

/-- C4: an input whose caveat list names a type outside the registry fails
to decode as a whole: msgpack decoding fails on any unregistered type code
and JSON decoding fails on any unknown type name; neither returns a
partially decoded `CaveatSet` as success. -/
theorem decode_unknown_type_fails (ps : List (CaveatType × Caveat)) (rest : List Tok)
    (js : List JCav) :
    (ps.any (fun p => (typeToCaveat p.1).isNone) = true →
      isOkE (CaveatSet.DecodeMsgpack (Tok.arr (2 * ps.length) :: pairToks ps ++ rest))
        = false)
    ∧ (js.any (fun j => (typeToCaveat (caveatTypeFromString j.type)).isNone) = true →
      isOkE (CaveatSet.UnmarshalJSON js) = false) := by
  refine ⟨fun hps => ?_, unmarshalJSON_unknown js⟩
  have h2 : 2 * ps.length % 2 = 0 := by omega
  have h3 : 2 * ps.length / 2 = ps.length := by omega
  simp [CaveatSet.DecodeMsgpack, h2, h3, decodeLoop_unregistered ps rest hps]

/-- Witness for C4: a stream declaring the unregistered code and a JSON
array naming an unknown type both fail. -/
theorem decode_unknown_type_fails_witness :
    isOkE (CaveatSet.DecodeMsgpack
        (Tok.arr 2 :: pairToks [(CavUnregistered, Caveat.ValidityWindow 0 0)] ++ []))
      = false
    ∧ isOkE (CaveatSet.UnmarshalJSON [⟨"Nope", Caveat.ValidityWindow 0 0⟩]) = false :=
  ⟨(decode_unknown_type_fails [(CavUnregistered, Caveat.ValidityWindow 0 0)] []
      [⟨"Nope", Caveat.ValidityWindow 0 0⟩]).1 (by rfl),
   (decode_unknown_type_fails [(CavUnregistered, Caveat.ValidityWindow 0 0)] []
      [⟨"Nope", Caveat.ValidityWindow 0 0⟩]).2 (by rfl)⟩

/-- A `BindToParentToken` caveat's prefix is collected. -/
theorem mem_bindToParentPfxs (cavs : List Caveat) (p : List Nat)
    (h : Caveat.BindToParentToken p ∈ cavs) : p ∈ bindToParentPfxs cavs := by
  exact List.mem_filterMap.mpr ⟨Caveat.BindToParentToken p, h, rfl⟩

/-- C8: the verifier's `BindToParentToken` step passes exactly when every
such caveat's prefix starts some supplied token binding id; in particular a
root carrying such a caveat fails against an empty id list, a zero-length
prefix matches any id, and a prefix longer than every id fails. -/
theorem verify_bind_to_parent_spec (cavs : List Caveat) (ids : List (List Nat))
    (p : List Nat) :
    (verifyBindToParentTokens cavs ids = true ↔
        ∀ q ∈ bindToParentPfxs cavs, ∃ i ∈ ids, q.isPrefixOf i = true)
    ∧ (Caveat.BindToParentToken p ∈ cavs → verifyBindToParentTokens cavs ids = true →
        ∃ i ∈ ids, p.isPrefixOf i = true)
    ∧ (Caveat.BindToParentToken p ∈ cavs → ids = [] →
        verifyBindToParentTokens cavs ids = false)
    ∧ (ids ≠ [] → verifyBindToParentTokens [Caveat.BindToParentToken []] ids = true)
    ∧ ((∀ i ∈ ids, i.length < p.length) → Caveat.BindToParentToken p ∈ cavs →
        verifyBindToParentTokens cavs ids = false) := by
  have hchar : verifyBindToParentTokens cavs ids = true ↔
      ∀ q ∈ bindToParentPfxs cavs, ∃ i ∈ ids, q.isPrefixOf i = true := by
    simp [verifyBindToParentTokens, List.all_eq_true, List.any_eq_true]
  have honly : Caveat.BindToParentToken p ∈ cavs →
      verifyBindToParentTokens cavs ids = true → ∃ i ∈ ids, p.isPrefixOf i = true :=
    fun hm hv => (hchar.mp hv) p (mem_bindToParentPfxs cavs p hm)
  refine ⟨hchar, honly, fun hm hids => ?_, fun hids => ?_, fun hlen hm => ?_⟩
  · rcases hv : verifyBindToParentTokens cavs ids with _ | _
    · rfl
    · rcases honly hm hv with ⟨i, hi, _⟩
      rw [hids] at hi
      cases hi
  · rcases ids with _ | ⟨i, ids⟩
    · cases hids rfl
    · simp [verifyBindToParentTokens, bindToParentPfxs, List.isPrefixOf]
  · rcases hv : verifyBindToParentTokens cavs ids with _ | _
    · rfl
    · rcases honly hm hv with ⟨i, hi, hpi⟩
      have := (List.isPrefixOf_iff_prefix.mp hpi).length_le
      have := hlen i hi
      omega

/-- Witness for C8 at the concrete prefixes and binding ids of the
`verify - bound root token` test. -/
theorem verify_bind_to_parent_spec_witness :
    verifyBindToParentTokens [Caveat.BindToParentToken [222, 173]] [] = false
    ∧ verifyBindToParentTokens [Caveat.BindToParentToken []] [[1]] = true
    ∧ verifyBindToParentTokens [Caveat.BindToParentToken [222, 173]] [[222]] = false
    ∧ ∃ i ∈ [[222, 173, 190, 239]], List.isPrefixOf [222, 173] i = true :=
  ⟨(verify_bind_to_parent_spec [Caveat.BindToParentToken [222, 173]] []
      [222, 173]).2.2.1 (by decide) rfl,
   (verify_bind_to_parent_spec [Caveat.BindToParentToken []] [[1]] []).2.2.2.1
     (by decide),
   (verify_bind_to_parent_spec [Caveat.BindToParentToken [222, 173]] [[222]]
      [222, 173]).2.2.2.2 (by decide) (by decide),
   (verify_bind_to_parent_spec [Caveat.BindToParentToken [222, 173]]
      [[222, 173, 190, 239]] [222, 173]).2.1 (by decide) (by decide)⟩

end MacaroonSrc
